import Mathlib

/-!
Shallow embedding of the solana-scraper discovery pipeline.

The repository has two near-duplicate scripts (src/main.ts and an unnamed
second script).  Both define `createCSV` and `getInteractingAddresses`; they
differ only in the reaction to a transient transaction-fetch error
(main.ts returns the partial set immediately; the second script sleeps
10000 ms and continues with the next signature) and in the fixed
per-signature delay (5000 ms vs 100 ms).  Following the spec's design note
(§7, §9) the embedding exposes this divergence as an explicit
`FailurePolicy` parameter and a `delayMs : Nat` parameter:
`abortAndReturnPartialResult` with delay 5000 is src/main.ts, `skipAndContinue`
with delay 100 is the second script.  Everything else is common to both.

Network effects are modelled by oracles: `listSigs : String → List
SignatureInfo` gives the single page returned by
`connection.getSignaturesForAddress(contractKey, { limit: 1000 })` and
`fetch : String → FetchResult` gives the outcome of
`connection.getParsedTransaction(signature, { maxSupportedTransactionVersion: 0 })`
(success, null, or a thrown error).  The run state records the JS
`Set<string>` as an insertion-ordered duplicate-free list (the semantics of
a JS Set together with `Array.from`), plus observation logs of the sleeps
performed and the listing / fetch calls issued, so that the temporal and
call-count claims can be stated.
-/

set_option autoImplicit false

namespace SolanaScraper

/-- One entry of `transaction.transaction.message.accountKeys`:
a public key together with its `signer` flag. -/
structure AccountKey where
  pubkey : String
  signer : Bool
deriving DecidableEq, Repr

/-- The parsed transaction, reduced to the fields the program reads:
`transaction.message.accountKeys`, which the code guards against being
absent (`if (!transaction.transaction.message.accountKeys) continue`). -/
structure ParsedTransactionWithMeta where
  accountKeys : Option (List AccountKey)
deriving DecidableEq, Repr

/-- One record returned by `getSignaturesForAddress`: the signature plus the
`slot` and optional `blockTime` fields that the scripts read (for logging
only). -/
structure SignatureInfo where
  signature : String
  slot : Nat
  blockTime : Option Int
deriving DecidableEq, Repr

/-- Outcome of one `getParsedTransaction` call: a parsed transaction,
`null` (transaction not found), or a thrown transient error. -/
inductive FetchResult where
  | success (tx : ParsedTransactionWithMeta)
  | notFound
  | fetchError
deriving DecidableEq, Repr

/-- The divergence point between the two scripts, made explicit as the spec
demands: `abortAndReturnPartialResult` is main.ts's `return Array.from(uniqueAddresses)`
inside the catch block; `skipAndContinue` is the second script's
`await sleep(10000); continue`. -/
inductive FailurePolicy where
  | abortAndReturnPartialResult
  | skipAndContinue
deriving DecidableEq, Repr

/-- `uniqueAddresses.add(a)` on a JS `Set<string>` modelled as an
insertion-ordered list: a no-op when the element is present, an append
otherwise. -/
def SetAdd (s : List String) (a : String) : List String :=
  if a ∈ s then s else s ++ [a]

/-- The `accountKeys.forEach((account) => { if (account.signer) {
uniqueAddresses.add(account.pubkey.toString()); ...; return } })` loop.
The `return` only exits the current callback invocation (a JS `forEach`
cannot be broken out of), so every signer-flagged entry is added. -/
def addSigners (s : List String) (keys : List AccountKey) : List String :=
  keys.foldl (fun t acc => if acc.signer then SetAdd t acc.pubkey else t) s

/-- The observable state of one run: the accumulating unique-address set, and
logs of the sleeps performed (durations in ms, in order), the listing calls
issued (address, page limit) and the fetch calls issued (signatures). -/
structure RunState where
  uniqueAddresses : List String
  sleeps : List Nat
  listCalls : List (String × Nat)
  fetchCalls : List String
deriving DecidableEq, Repr

def initialState : RunState := ⟨[], [], [], []⟩

/-- The body of the inner `for (const signatureInfo of signatures)` loop.
Returns the state after the iteration and `true` when the iteration aborts
the whole run (the `return Array.from(uniqueAddresses)` of main.ts's catch
block).  Branches, in source order:
* `getParsedTransaction` throws: under `abortAndReturnPartialResult` return the
  partial set; under `skipAndContinue` sleep 10000 ms and `continue`;
* `!transaction`: warn and `continue` (no sleep);
* `!transaction.transaction.message.accountKeys`: warn and `continue`
  (no sleep);
* otherwise add every signer key to the set and `await sleep(delayMs)`. -/
def processSignature (policy : FailurePolicy) (delayMs : Nat)
    (fetch : String → FetchResult) (st : RunState) (sig : SignatureInfo) :
    RunState × Bool :=
  let st1 : RunState := { st with fetchCalls := st.fetchCalls ++ [sig.signature] }
  match fetch sig.signature with
  | FetchResult.fetchError =>
      match policy with
      | FailurePolicy.abortAndReturnPartialResult => (st1, true)
      | FailurePolicy.skipAndContinue =>
          ({ st1 with sleeps := st1.sleeps ++ [10000] }, false)
  | FetchResult.notFound => (st1, false)
  | FetchResult.success tx =>
      match tx.accountKeys with
      | none => (st1, false)
      | some keys =>
          ({ st1 with
              uniqueAddresses := addSigners st1.uniqueAddresses keys,
              sleeps := st1.sleeps ++ [delayMs] }, false)

/-- The inner loop over the signatures of one contract; stops early when an
iteration aborts, propagating the abort flag. -/
def processSignatures (policy : FailurePolicy) (delayMs : Nat)
    (fetch : String → FetchResult) :
    RunState → List SignatureInfo → RunState × Bool
  | st, [] => (st, false)
  | st, sig :: rest =>
      let r := processSignature policy delayMs fetch st sig
      if r.2 then (r.1, true)
      else processSignatures policy delayMs fetch r.1 rest

/-- The outer `for (const contract of contractPublicKey)` loop: one
`getSignaturesForAddress(contractKey, { limit: 1000 })` call per contract,
then the signature loop; an abort inside the signature loop returns
immediately, skipping the remaining contracts. -/
def processContracts (policy : FailurePolicy) (delayMs : Nat)
    (listSigs : String → List SignatureInfo) (fetch : String → FetchResult) :
    RunState → List String → RunState × Bool
  | st, [] => (st, false)
  | st, c :: rest =>
      let st1 : RunState := { st with listCalls := st.listCalls ++ [(c, 1000)] }
      let r := processSignatures policy delayMs fetch st1 (listSigs c)
      if r.2 then (r.1, true)
      else processContracts policy delayMs listSigs fetch r.1 rest

/-- `getInteractingAddresses`: run the pipeline from the empty set and return
`Array.from(uniqueAddresses)`, i.e. the set in insertion order. -/
def getInteractingAddresses (policy : FailurePolicy) (delayMs : Nat)
    (listSigs : String → List SignatureInfo) (fetch : String → FetchResult)
    (contracts : List String) : List String :=
  (processContracts policy delayMs listSigs fetch initialState contracts).1.uniqueAddresses

/-- `createCSV`'s file content: `strings.join(";") + "\n"`. -/
def createCSV (strings : List String) : String :=
  String.intercalate ";" strings ++ "\n"

/-- The signer public keys of one account-entry list, in entry order. -/
def signerKeys (keys : List AccountKey) : List String :=
  (keys.filter (fun a => a.signer)).map (fun a => a.pubkey)

/-- Modelled from the spec (§3 invariant): the stream of `publicKey`s of
signer-flagged account entries across the transactions actually processed,
in processing order; a fetch error contributes nothing (and under
`abortAndReturnPartialResult` ends the stream), and an absent transaction or
absent account list contributes nothing.  Returns the stream together with
the abort flag. -/
def collectSignatures (policy : FailurePolicy) (fetch : String → FetchResult) :
    List SignatureInfo → List String × Bool
  | [] => ([], false)
  | sig :: rest =>
      match fetch sig.signature with
      | FetchResult.fetchError =>
          match policy with
          | FailurePolicy.abortAndReturnPartialResult => ([], true)
          | FailurePolicy.skipAndContinue => collectSignatures policy fetch rest
      | FetchResult.notFound => collectSignatures policy fetch rest
      | FetchResult.success tx =>
          match tx.accountKeys with
          | none => collectSignatures policy fetch rest
          | some keys =>
              let r := collectSignatures policy fetch rest
              (signerKeys keys ++ r.1, r.2)

/-- Modelled from the spec (§3 invariant): the signer-key stream of a whole
run, concatenated over the contracts in caller order, cut short by an
abort; the flag records whether the run aborted. -/
def collectContracts (policy : FailurePolicy) (fetch : String → FetchResult)
    (listSigs : String → List SignatureInfo) : List String → List String × Bool
  | [] => ([], false)
  | c :: rest =>
      let r := collectSignatures policy fetch (listSigs c)
      if r.2 then (r.1, true)
      else
        let r2 := collectContracts policy fetch listSigs rest
        (r.1 ++ r2.1, r2.2)

/-- Keep the first occurrence of every element, in first-occurrence order:
the insertion order of a JS Set fed with this stream. -/
def firstOccurrences : List String → List String
  | [] => []
  | a :: l => a :: firstOccurrences (l.filter (fun b => b ≠ a))
termination_by l => l.length
decreasing_by
  simp only [List.length_cons]
  exact Nat.lt_succ_of_le (List.length_filter_le _ _)

/-! Concrete ledger data used to instantiate the theorems below on closed
inputs. -/

/-- A transaction with one signer (`Alice`) and one non-signer entry. -/
def txA : ParsedTransactionWithMeta := ⟨some [⟨"Alice", true⟩, ⟨"Prog", false⟩]⟩

/-- A transaction with two signer entries. -/
def txB : ParsedTransactionWithMeta := ⟨some [⟨"Bob", true⟩, ⟨"Alice", true⟩]⟩

def sigA : SignatureInfo := ⟨"sigA", 10, some 100⟩

def sigB : SignatureInfo := ⟨"sigB", 11, none⟩

/-- A signature whose fetch raises a transient error under `exFetch`. -/
def sigE : SignatureInfo := ⟨"sigE", 12, none⟩

/-- A signature whose fetch returns an absent transaction under `exFetch`. -/
def sigN : SignatureInfo := ⟨"sigN", 13, none⟩

/-- Concrete fetch oracle: `sigA ↦ txA`, `sigB ↦ txB`, `sigE ↦ error`,
anything else (in particular `sigN`) `↦` not found. -/
def exFetch : String → FetchResult := fun s =>
  if s = "sigA" then FetchResult.success txA
  else if s = "sigB" then FetchResult.success txB
  else if s = "sigE" then FetchResult.fetchError
  else FetchResult.notFound

/-- Concrete listing oracle: contract `c1` has one clean page, contract `c2`
has a page whose middle signature errors, anything else two signatures. -/
def exListSigs : String → List SignatureInfo := fun a =>
  if a = "c1" then [sigA]
  else if a = "c2" then [sigA, sigE, sigB]
  else [sigB, sigA]

/-! ### Lemmas about the set model -/

theorem mem_SetAdd {s : List String} {a b : String} :
    b ∈ SetAdd s a ↔ b ∈ s ∨ b = a := by
  unfold SetAdd
  by_cases h : a ∈ s
  · rw [if_pos h]
    constructor
    · exact Or.inl
    · rintro (hb | rfl)
      · exact hb
      · exact h
  · rw [if_neg h]
    simp

theorem SetAdd_of_mem {s : List String} {a : String} (h : a ∈ s) :
    SetAdd s a = s := if_pos h

theorem SetAdd_of_not_mem {s : List String} {a : String} (h : a ∉ s) :
    SetAdd s a = s ++ [a] := if_neg h

theorem nodup_SetAdd {s : List String} (h : s.Nodup) (a : String) :
    (SetAdd s a).Nodup := by
  by_cases ha : a ∈ s
  · rw [SetAdd_of_mem ha]; exact h
  · rw [SetAdd_of_not_mem ha]
    refine List.Nodup.append h (List.nodup_singleton a) ?_
    intro x hx hxa
    rw [List.mem_singleton] at hxa
    exact ha (hxa ▸ hx)

theorem mem_foldl_SetAdd (l : List String) (s : List String) (b : String) :
    b ∈ l.foldl SetAdd s ↔ b ∈ s ∨ b ∈ l := by
  induction l generalizing s with
  | nil => simp
  | cons a t ih =>
      rw [List.foldl_cons, ih, List.mem_cons]
      constructor
      · rintro (h | h)
        · rcases mem_SetAdd.1 h with h1 | h1
          · exact Or.inl h1
          · exact Or.inr (Or.inl h1)
        · exact Or.inr (Or.inr h)
      · rintro (h | h | h)
        · exact Or.inl (mem_SetAdd.2 (Or.inl h))
        · exact Or.inl (mem_SetAdd.2 (Or.inr h))
        · exact Or.inr h

theorem nodup_foldl_SetAdd (l : List String) {s : List String} (h : s.Nodup) :
    (l.foldl SetAdd s).Nodup := by
  induction l generalizing s with
  | nil => exact h
  | cons a t ih => exact ih (nodup_SetAdd h a)

theorem firstOccurrences_nil : firstOccurrences [] = [] := by
  rw [firstOccurrences]

theorem firstOccurrences_cons (a : String) (l : List String) :
    firstOccurrences (a :: l) = a :: firstOccurrences (l.filter (fun b => b ≠ a)) := by
  rw [firstOccurrences]

theorem foldl_SetAdd_eq (l : List String) (s : List String) :
    l.foldl SetAdd s
      = s ++ firstOccurrences (l.filter (fun b => b ∉ s)) := by
  induction l generalizing s with
  | nil => simp [firstOccurrences_nil]
  | cons a t ih =>
      rw [List.foldl_cons]
      by_cases h : a ∈ s
      · have h1 : (a :: t).filter (fun b => b ∉ s) = t.filter (fun b => b ∉ s) := by
          rw [List.filter_cons]
          simp [h]
        rw [SetAdd_of_mem h, ih, h1]
      · have h1 : (a :: t).filter (fun b => b ∉ s)
            = a :: t.filter (fun b => b ∉ s) := by
          rw [List.filter_cons]
          simp [h]
        have hfilter :
            t.filter (fun b => b ∉ s ++ [a])
              = (t.filter (fun b => b ∉ s)).filter (fun b => b ≠ a) := by
          rw [List.filter_filter]
          refine List.filter_congr ?_
          intro b _
          by_cases hb : b ∈ s
          · simp [hb]
          · by_cases hba : b = a <;> simp [hb, hba]
        rw [SetAdd_of_not_mem h, ih, h1, firstOccurrences_cons, hfilter,
          List.append_assoc, List.singleton_append]

theorem addSigners_eq (s : List String) (keys : List AccountKey) :
    addSigners s keys = (signerKeys keys).foldl SetAdd s := by
  induction keys generalizing s with
  | nil => rfl
  | cons k t ih =>
      by_cases h : k.signer
      · have hsk : signerKeys (k :: t) = k.pubkey :: signerKeys t := by
          simp [signerKeys, List.filter_cons, h]
        rw [addSigners, List.foldl_cons, if_pos h, hsk, List.foldl_cons]
        exact ih (SetAdd s k.pubkey)
      · have hsk : signerKeys (k :: t) = signerKeys t := by
          simp [signerKeys, List.filter_cons, h]
        rw [addSigners, List.foldl_cons, if_neg h, hsk]
        exact ih s

/-! ### The pipeline state versus the collected signer stream -/

theorem processSignature_fetchCalls (policy : FailurePolicy) (d : Nat)
    (fetch : String → FetchResult) (st : RunState) (sig : SignatureInfo) :
    (processSignature policy d fetch st sig).1.fetchCalls
      = st.fetchCalls ++ [sig.signature] := by
  unfold processSignature
  cases fetch sig.signature with
  | fetchError => cases policy <;> rfl
  | notFound => rfl
  | success tx =>
      obtain ⟨ak⟩ := tx
      cases ak <;> rfl

theorem processSignature_listCalls (policy : FailurePolicy) (d : Nat)
    (fetch : String → FetchResult) (st : RunState) (sig : SignatureInfo) :
    (processSignature policy d fetch st sig).1.listCalls = st.listCalls := by
  unfold processSignature
  cases fetch sig.signature with
  | fetchError => cases policy <;> rfl
  | notFound => rfl
  | success tx =>
      obtain ⟨ak⟩ := tx
      cases ak <;> rfl

theorem processSignature_skip_flag (d : Nat) (fetch : String → FetchResult)
    (st : RunState) (sig : SignatureInfo) :
    (processSignature FailurePolicy.skipAndContinue d fetch st sig).2 = false := by
  unfold processSignature
  cases fetch sig.signature with
  | fetchError => rfl
  | notFound => rfl
  | success tx =>
      obtain ⟨ak⟩ := tx
      cases ak <;> rfl

theorem processSignatures_flag (policy : FailurePolicy) (d : Nat)
    (fetch : String → FetchResult) (sigs : List SignatureInfo) (st : RunState) :
    (processSignatures policy d fetch st sigs).2
      = (collectSignatures policy fetch sigs).2 := by
  induction sigs generalizing st with
  | nil => rfl
  | cons sig rest ih =>
      cases hf : fetch sig.signature with
      | fetchError =>
          cases policy with
          | abortAndReturnPartialResult =>
              simp [processSignatures, processSignature, collectSignatures, hf]
          | skipAndContinue =>
              simp [processSignatures, processSignature, collectSignatures, hf, ih]
      | notFound =>
          simp [processSignatures, processSignature, collectSignatures, hf, ih]
      | success tx =>
          cases hk : tx.accountKeys with
          | none =>
              simp [processSignatures, processSignature, collectSignatures, hf, hk, ih]
          | some keys =>
              simp [processSignatures, processSignature, collectSignatures, hf, hk, ih]

theorem processSignatures_unique (policy : FailurePolicy) (d : Nat)
    (fetch : String → FetchResult) (sigs : List SignatureInfo) (st : RunState) :
    (processSignatures policy d fetch st sigs).1.uniqueAddresses
      = (collectSignatures policy fetch sigs).1.foldl SetAdd st.uniqueAddresses := by
  induction sigs generalizing st with
  | nil => rfl
  | cons sig rest ih =>
      cases hf : fetch sig.signature with
      | fetchError =>
          cases policy with
          | abortAndReturnPartialResult =>
              simp [processSignatures, processSignature, collectSignatures, hf]
          | skipAndContinue =>
              simp [processSignatures, processSignature, collectSignatures, hf, ih]
      | notFound =>
          simp [processSignatures, processSignature, collectSignatures, hf, ih]
      | success tx =>
          cases hk : tx.accountKeys with
          | none =>
              simp [processSignatures, processSignature, collectSignatures, hf, hk, ih]
          | some keys =>
              simp [processSignatures, processSignature, collectSignatures, hf, hk, ih,
                addSigners_eq, List.foldl_append]

theorem processSignatures_listCalls (policy : FailurePolicy) (d : Nat)
    (fetch : String → FetchResult) (sigs : List SignatureInfo) (st : RunState) :
    (processSignatures policy d fetch st sigs).1.listCalls = st.listCalls := by
  induction sigs generalizing st with
  | nil => rfl
  | cons sig rest ih =>
      by_cases hb : (processSignature policy d fetch st sig).2
      · simp [processSignatures, hb, processSignature_listCalls]
      · simp [processSignatures, hb, ih, processSignature_listCalls]

theorem processSignatures_fetchCalls_skip (d : Nat) (fetch : String → FetchResult)
    (sigs : List SignatureInfo) (st : RunState) :
    (processSignatures FailurePolicy.skipAndContinue d fetch st sigs).1.fetchCalls
      = st.fetchCalls ++ sigs.map (fun sig => sig.signature) := by
  induction sigs generalizing st with
  | nil => simp [processSignatures]
  | cons sig rest ih =>
      simp [processSignatures, processSignature_skip_flag, ih,
        processSignature_fetchCalls]

theorem processContracts_flag (policy : FailurePolicy) (d : Nat)
    (listSigs : String → List SignatureInfo) (fetch : String → FetchResult)
    (cs : List String) (st : RunState) :
    (processContracts policy d listSigs fetch st cs).2
      = (collectContracts policy fetch listSigs cs).2 := by
  induction cs generalizing st with
  | nil => rfl
  | cons c rest ih =>
      by_cases hb : (collectSignatures policy fetch (listSigs c)).2
      · simp [processContracts, collectContracts, processSignatures_flag, hb]
      · simp [processContracts, collectContracts, processSignatures_flag, hb, ih]

theorem processContracts_unique (policy : FailurePolicy) (d : Nat)
    (listSigs : String → List SignatureInfo) (fetch : String → FetchResult)
    (cs : List String) (st : RunState) :
    (processContracts policy d listSigs fetch st cs).1.uniqueAddresses
      = (collectContracts policy fetch listSigs cs).1.foldl SetAdd st.uniqueAddresses := by
  induction cs generalizing st with
  | nil => rfl
  | cons c rest ih =>
      by_cases hb : (collectSignatures policy fetch (listSigs c)).2
      · simp [processContracts, collectContracts, processSignatures_flag, hb,
          processSignatures_unique]
      · simp [processContracts, collectContracts, processSignatures_flag, hb, ih,
          processSignatures_unique, List.foldl_append]

/-! ### Lemmas about the collected signer stream -/

theorem collectSignatures_skip_flag (fetch : String → FetchResult)
    (sigs : List SignatureInfo) :
    (collectSignatures FailurePolicy.skipAndContinue fetch sigs).2 = false := by
  induction sigs with
  | nil => rfl
  | cons sig rest ih =>
      cases hf : fetch sig.signature with
      | fetchError => simpa [collectSignatures, hf] using ih
      | notFound => simpa [collectSignatures, hf] using ih
      | success tx =>
          cases hk : tx.accountKeys with
          | none => simpa [collectSignatures, hf, hk] using ih
          | some keys => simpa [collectSignatures, hf, hk] using ih

theorem collectSignatures_flag_of_no_error (policy : FailurePolicy)
    (fetch : String → FetchResult) (sigs : List SignatureInfo)
    (h : ∀ sig ∈ sigs, fetch sig.signature ≠ FetchResult.fetchError) :
    (collectSignatures policy fetch sigs).2 = false := by
  induction sigs with
  | nil => rfl
  | cons sig rest ih =>
      have hrest : ∀ s ∈ rest, fetch s.signature ≠ FetchResult.fetchError :=
        fun s hs => h s (List.mem_cons_of_mem _ hs)
      cases hf : fetch sig.signature with
      | fetchError => exact absurd hf (h sig (List.mem_cons_self sig rest))
      | notFound => simpa [collectSignatures, hf] using ih hrest
      | success tx =>
          cases hk : tx.accountKeys with
          | none => simpa [collectSignatures, hf, hk] using ih hrest
          | some keys => simpa [collectSignatures, hf, hk] using ih hrest

theorem collectSignatures_append (policy : FailurePolicy)
    (fetch : String → FetchResult) (xs ys : List SignatureInfo)
    (h : (collectSignatures policy fetch xs).2 = false) :
    collectSignatures policy fetch (xs ++ ys)
      = ((collectSignatures policy fetch xs).1 ++ (collectSignatures policy fetch ys).1,
         (collectSignatures policy fetch ys).2) := by
  induction xs with
  | nil => simp [collectSignatures]
  | cons sig rest ih =>
      cases hf : fetch sig.signature with
      | fetchError =>
          cases policy with
          | abortAndReturnPartialResult =>
              simp [collectSignatures, hf] at h
          | skipAndContinue =>
              simp only [collectSignatures, hf] at h
              simp only [List.cons_append, collectSignatures, hf]
              exact ih h
      | notFound =>
          simp only [collectSignatures, hf] at h
          simp only [List.cons_append, collectSignatures, hf]
          exact ih h
      | success tx =>
          cases hk : tx.accountKeys with
          | none =>
              simp only [collectSignatures, hf, hk] at h
              simp only [List.cons_append, collectSignatures, hf, hk]
              exact ih h
          | some keys =>
              simp only [collectSignatures, hf, hk] at h
              simp only [List.cons_append, collectSignatures, hf, hk, List.append_eq]
              rw [ih h]
              simp [List.append_assoc]

theorem collectContracts_congr (policy : FailurePolicy)
    (fetch : String → FetchResult) (ls ls2 : String → List SignatureInfo)
    (cs : List String)
    (h : ∀ a ∈ cs, collectSignatures policy fetch (ls a)
        = collectSignatures policy fetch (ls2 a)) :
    collectContracts policy fetch ls cs = collectContracts policy fetch ls2 cs := by
  induction cs with
  | nil => rfl
  | cons c rest ih =>
      have hc := h c (List.mem_cons_self c rest)
      have hrest : ∀ a ∈ rest, collectSignatures policy fetch (ls a)
          = collectSignatures policy fetch (ls2 a) :=
        fun a ha => h a (List.mem_cons_of_mem _ ha)
      rw [collectContracts, collectContracts, hc, ih hrest]

theorem collectContracts_append (policy : FailurePolicy)
    (fetch : String → FetchResult) (ls : String → List SignatureInfo)
    (xs ys : List String)
    (h : (collectContracts policy fetch ls xs).2 = false) :
    collectContracts policy fetch ls (xs ++ ys)
      = ((collectContracts policy fetch ls xs).1 ++ (collectContracts policy fetch ls ys).1,
         (collectContracts policy fetch ls ys).2) := by
  induction xs with
  | nil => simp [collectContracts]
  | cons c rest ih =>
      by_cases hb : (collectSignatures policy fetch (ls c)).2
      · simp [collectContracts, hb] at h
      · simp only [collectContracts, hb] at h
        simp only [Bool.false_eq_true, if_false] at h
        simp only [List.cons_append, collectContracts, hb, Bool.false_eq_true, if_false,
          List.append_eq]
        rw [ih h]
        simp [List.append_assoc]

theorem collectContracts_flag_of_no_error (policy : FailurePolicy)
    (fetch : String → FetchResult) (ls : String → List SignatureInfo)
    (cs : List String)
    (h : ∀ a ∈ cs, ∀ sig ∈ ls a, fetch sig.signature ≠ FetchResult.fetchError) :
    (collectContracts policy fetch ls cs).2 = false := by
  induction cs with
  | nil => rfl
  | cons c rest ih =>
      have hc := collectSignatures_flag_of_no_error policy fetch (ls c)
        (h c (List.mem_cons_self c rest))
      have hrest := ih (fun a ha => h a (List.mem_cons_of_mem _ ha))
      simp [collectContracts, hc, hrest]

theorem collectContracts_skip_flag (fetch : String → FetchResult)
    (ls : String → List SignatureInfo) (cs : List String) :
    (collectContracts FailurePolicy.skipAndContinue fetch ls cs).2 = false := by
  induction cs with
  | nil => rfl
  | cons c rest ih =>
      simp [collectContracts, collectSignatures_skip_flag, ih]

theorem processContracts_listCalls_take (policy : FailurePolicy) (d : Nat)
    (ls : String → List SignatureInfo) (fetch : String → FetchResult)
    (cs : List String) (st : RunState) :
    ∃ k, (processContracts policy d ls fetch st cs).1.listCalls
      = st.listCalls ++ (cs.take k).map (fun c => (c, 1000)) := by
  induction cs generalizing st with
  | nil => exact ⟨0, by simp [processContracts]⟩
  | cons c rest ih =>
      by_cases hb : (processSignatures policy d fetch
          { st with listCalls := st.listCalls ++ [(c, 1000)] } (ls c)).2
      · refine ⟨1, ?_⟩
        simp [processContracts, hb, processSignatures_listCalls]
      · obtain ⟨k, hk⟩ := ih
          ((processSignatures policy d fetch
            { st with listCalls := st.listCalls ++ [(c, 1000)] } (ls c)).1)
        refine ⟨k + 1, ?_⟩
        simp [processContracts, hb, hk, processSignatures_listCalls,
          List.take_succ_cons, List.append_assoc]

theorem processContracts_listCalls_skip (d : Nat)
    (ls : String → List SignatureInfo) (fetch : String → FetchResult)
    (cs : List String) (st : RunState) :
    (processContracts FailurePolicy.skipAndContinue d ls fetch st cs).1.listCalls
      = st.listCalls ++ cs.map (fun c => (c, 1000)) := by
  induction cs generalizing st with
  | nil => simp [processContracts]
  | cons c rest ih =>
      have hb : (processSignatures FailurePolicy.skipAndContinue d fetch
          { st with listCalls := st.listCalls ++ [(c, 1000)] } (ls c)).2 = false := by
        rw [processSignatures_flag]
        exact collectSignatures_skip_flag fetch (ls c)
      simp [processContracts, hb, ih, processSignatures_listCalls, List.append_assoc]

/-! ### Claim theorems -/

/-- Claim C1: for every run, the final unique-address set contains no
duplicates and contains exactly the public keys of the signer-flagged
account entries across all transactions actually processed (skipped
transactions contribute nothing, as captured by `collectContracts`). -/
theorem uniqueAddressSet_invariant (policy : FailurePolicy) (d : Nat)
    (listSigs : String → List SignatureInfo) (fetch : String → FetchResult)
    (cs : List String) :
    (getInteractingAddresses policy d listSigs fetch cs).Nodup ∧
    ∀ a, a ∈ getInteractingAddresses policy d listSigs fetch cs
      ↔ a ∈ (collectContracts policy fetch listSigs cs).1 := by
  have h : getInteractingAddresses policy d listSigs fetch cs
      = (collectContracts policy fetch listSigs cs).1.foldl SetAdd [] := by
    unfold getInteractingAddresses
    rw [processContracts_unique]
    rfl
  constructor
  · rw [h]
    exact nodup_foldl_SetAdd _ List.nodup_nil
  · intro a
    rw [h, mem_foldl_SetAdd]
    simp

/-- Claim C9: the list returned by `getInteractingAddresses` is exactly the
first-discovery order of the signer addresses: each address sits at the
position of its first insertion, and re-insertions neither reorder nor
duplicate it. -/
theorem returnsFirstDiscoveryOrder (policy : FailurePolicy) (d : Nat)
    (listSigs : String → List SignatureInfo) (fetch : String → FetchResult)
    (cs : List String) :
    getInteractingAddresses policy d listSigs fetch cs
      = firstOccurrences (collectContracts policy fetch listSigs cs).1 := by
  unfold getInteractingAddresses
  rw [processContracts_unique, foldl_SetAdd_eq]
  have hfil : ((collectContracts policy fetch listSigs cs).1.filter
      (fun b => b ∉ initialState.uniqueAddresses))
      = (collectContracts policy fetch listSigs cs).1 := by
    refine List.filter_eq_self.2 ?_
    intro a _
    simp [initialState]
  rw [hfil]
  rfl

/-- Claim C10: on the empty contract list the pipeline performs no listing
call and no fetch call and returns the empty list, and serializing the
empty result yields exactly one newline. -/
theorem emptyRun_spec (policy : FailurePolicy) (d : Nat)
    (listSigs : String → List SignatureInfo) (fetch : String → FetchResult) :
    getInteractingAddresses policy d listSigs fetch [] = [] ∧
    (processContracts policy d listSigs fetch initialState []).1.listCalls = [] ∧
    (processContracts policy d listSigs fetch initialState []).1.fetchCalls = [] ∧
    createCSV [] = "\n" :=
  ⟨rfl, rfl, rfl, rfl⟩

/-- Claim C5: the serialized output is the entries joined by the `;`
delimiter followed by a single trailing newline, with no header row and no
escaping; in particular `["Addr1", "Addr2"]` serializes to
`"Addr1;Addr2\n"`. -/
theorem createCSV_spec :
    createCSV ["Addr1", "Addr2"] = "Addr1;Addr2\n" ∧
    createCSV ["Addr1", "Addr2", "Addr3"] = "Addr1;Addr2;Addr3\n" ∧
    (∀ a : String, createCSV [a] = a ++ "\n") ∧
    (∀ a b : String, createCSV [a, b] = a ++ ";" ++ b ++ "\n") := by
  refine ⟨rfl, rfl, ?_, ?_⟩
  · intro a
    simp [createCSV, String.intercalate, String.intercalate.go]
  · intro a b
    simp [createCSV, String.intercalate, String.intercalate.go]

/-- Claim C4: a signature whose fetch returns an absent transaction, or whose
transaction has no account-entry list, is a non-error skip: the iteration
leaves the set and the sleep log unchanged (no cooldown), only records the
fetch call, and does not abort the loop. -/
theorem skipNoError_spec (policy : FailurePolicy) (d : Nat)
    (fetch : String → FetchResult) (st : RunState) (sig : SignatureInfo) :
    (fetch sig.signature = FetchResult.notFound →
      processSignature policy d fetch st sig
        = ({ st with fetchCalls := st.fetchCalls ++ [sig.signature] }, false)) ∧
    (∀ tx, fetch sig.signature = FetchResult.success tx → tx.accountKeys = none →
      processSignature policy d fetch st sig
        = ({ st with fetchCalls := st.fetchCalls ++ [sig.signature] }, false)) := by
  constructor
  · intro h
    simp [processSignature, h]
  · intro tx h hk
    simp [processSignature, h, hk]

/-- Witness for C4 at concrete inputs: an absent transaction and a
transaction without an account list. -/
theorem skipNoError_spec_witness :
    processSignature FailurePolicy.abortAndReturnPartialResult 5000
        (fun _ => FetchResult.notFound) initialState sigN
      = ({ initialState with fetchCalls := ["sigN"] }, false) ∧
    processSignature FailurePolicy.abortAndReturnPartialResult 5000
        (fun _ => FetchResult.success ⟨none⟩) initialState sigN
      = ({ initialState with fetchCalls := ["sigN"] }, false) :=
  ⟨(skipNoError_spec FailurePolicy.abortAndReturnPartialResult 5000
      (fun _ => FetchResult.notFound) initialState sigN).1 rfl,
   (skipNoError_spec FailurePolicy.abortAndReturnPartialResult 5000
      (fun _ => FetchResult.success ⟨none⟩) initialState sigN).2 ⟨none⟩ rfl rfl⟩

/-- Claim C2: under the abort-and-return-partial policy, a transient fetch
error on signature `S` halts the run at once: the result equals the result
of the truncated run that stops just before `S` (no signer of `S`, of any
later signature, or of any later address is included). -/
theorem abortPolicyReturnsAccumulated (d : Nat)
    (listSigs : String → List SignatureInfo) (fetch : String → FetchResult)
    (cs1 cs2 : List String) (c : String) (pre post : List SignatureInfo)
    (S : SignatureInfo)
    (hc : c ∉ cs1)
    (hl : listSigs c = pre ++ S :: post)
    (h1 : ∀ a ∈ cs1, ∀ sig ∈ listSigs a, fetch sig.signature ≠ FetchResult.fetchError)
    (h2 : ∀ sig ∈ pre, fetch sig.signature ≠ FetchResult.fetchError)
    (hS : fetch S.signature = FetchResult.fetchError) :
    getInteractingAddresses FailurePolicy.abortAndReturnPartialResult d
        listSigs fetch (cs1 ++ c :: cs2)
      = getInteractingAddresses FailurePolicy.abortAndReturnPartialResult d
          (fun a => if a = c then pre else listSigs a) fetch (cs1 ++ [c]) := by
  have hcong : ∀ a ∈ cs1,
      collectSignatures FailurePolicy.abortAndReturnPartialResult fetch (listSigs a)
        = collectSignatures FailurePolicy.abortAndReturnPartialResult fetch
            ((fun x => if x = c then pre else listSigs x) a) := by
    intro a ha
    have hne : a ≠ c := fun he => hc (he ▸ ha)
    simp [hne]
  have hflag1 : (collectContracts FailurePolicy.abortAndReturnPartialResult
      fetch listSigs cs1).2 = false :=
    collectContracts_flag_of_no_error _ _ _ _ h1
  have hflag2 : (collectContracts FailurePolicy.abortAndReturnPartialResult
      fetch (fun x => if x = c then pre else listSigs x) cs1).2 = false := by
    rw [← collectContracts_congr _ _ _ _ _ hcong]
    exact hflag1
  have hpre : (collectSignatures FailurePolicy.abortAndReturnPartialResult
      fetch pre).2 = false :=
    collectSignatures_flag_of_no_error _ _ _ h2
  have hSpost : collectSignatures FailurePolicy.abortAndReturnPartialResult
      fetch (S :: post) = ([], true) := by
    simp [collectSignatures, hS]
  have hc2 : collectSignatures FailurePolicy.abortAndReturnPartialResult
      fetch (listSigs c)
      = ((collectSignatures FailurePolicy.abortAndReturnPartialResult fetch pre).1,
         true) := by
    rw [hl, collectSignatures_append _ _ _ _ hpre, hSpost]
    simp
  unfold getInteractingAddresses
  rw [processContracts_unique, processContracts_unique]
  suffices hsuf : (collectContracts FailurePolicy.abortAndReturnPartialResult
      fetch listSigs (cs1 ++ c :: cs2)).1
      = (collectContracts FailurePolicy.abortAndReturnPartialResult
          fetch (fun x => if x = c then pre else listSigs x) (cs1 ++ [c])).1 by
    rw [hsuf]
  rw [collectContracts_append _ _ _ _ _ hflag1,
      collectContracts_append _ _ _ _ _ hflag2,
      collectContracts_congr _ _ _ _ _ hcong]
  simp only [List.append_cancel_left_eq]
  simp [collectContracts, hc2, hpre]

/-- Witness for C2: a run over contracts `[c1, c2, c3]` where `c2`'s page is
`[sigA, sigE, sigB]` and `sigE` errors returns the same set as the run
truncated just before `sigE`. -/
theorem abortPolicyReturnsAccumulated_witness :
    getInteractingAddresses FailurePolicy.abortAndReturnPartialResult 5000
        exListSigs exFetch (["c1"] ++ "c2" :: ["c3"])
      = getInteractingAddresses FailurePolicy.abortAndReturnPartialResult 5000
          (fun a => if a = "c2" then [sigA] else exListSigs a) exFetch
          (["c1"] ++ ["c2"]) :=
  abortPolicyReturnsAccumulated 5000 exListSigs exFetch ["c1"] ["c3"] "c2"
    [sigA] [sigB] sigE (by decide) (by decide) (by decide) (by decide) (by decide)

/-- Claim C3: under the skip-and-continue policy a transient error on
signature `S` contributes a fixed 10000 ms cooldown and nothing else: the
result equals the run with `S` deleted from its page (so a later
signature's signers still enter normally), the erroring iteration records
the cooldown and continues, and every signature is fetched exactly once
(no retry). -/
theorem skipPolicyCooldownAndNoRetry (d : Nat)
    (listSigs : String → List SignatureInfo) (fetch : String → FetchResult)
    (cs : List String) (c : String) (pre post : List SignatureInfo)
    (S : SignatureInfo)
    (hl : listSigs c = pre ++ S :: post)
    (hS : fetch S.signature = FetchResult.fetchError) :
    getInteractingAddresses FailurePolicy.skipAndContinue d listSigs fetch cs
      = getInteractingAddresses FailurePolicy.skipAndContinue d
          (fun x => if x = c then pre ++ post else listSigs x) fetch cs
    ∧ (∀ st : RunState,
        processSignature FailurePolicy.skipAndContinue d fetch st S
          = ({ st with fetchCalls := st.fetchCalls ++ [S.signature],
                       sleeps := st.sleeps ++ [10000] }, false))
    ∧ (∀ (st : RunState) (sigs : List SignatureInfo),
        (processSignatures FailurePolicy.skipAndContinue d fetch st sigs).1.fetchCalls
          = st.fetchCalls ++ sigs.map (fun sig => sig.signature)) := by
  refine ⟨?_, ?_, fun st sigs => processSignatures_fetchCalls_skip d fetch sigs st⟩
  · have hcs : ∀ a ∈ cs,
        collectSignatures FailurePolicy.skipAndContinue fetch (listSigs a)
          = collectSignatures FailurePolicy.skipAndContinue fetch
              ((fun x => if x = c then pre ++ post else listSigs x) a) := by
      intro a _
      by_cases ha : a = c
      · subst ha
        have hif : ((fun x => if x = a then pre ++ post else listSigs x) a)
            = pre ++ post := by
          simp
        rw [hif, hl]
        have e3 : collectSignatures FailurePolicy.skipAndContinue fetch (S :: post)
            = collectSignatures FailurePolicy.skipAndContinue fetch post := by
          simp [collectSignatures, hS]
        rw [collectSignatures_append _ _ _ _ (collectSignatures_skip_flag fetch pre),
            collectSignatures_append _ _ _ _ (collectSignatures_skip_flag fetch pre),
            e3]
      · simp [ha]
    unfold getInteractingAddresses
    rw [processContracts_unique, processContracts_unique,
      collectContracts_congr _ _ _ _ _ hcs]
  · intro st
    simp [processSignature, hS]

/-- Witness for C3 at concrete inputs: contract `c2`'s page is
`[sigA, sigE, sigB]`, `sigE` errors, `sigB` succeeds afterwards. -/
theorem skipPolicyCooldownAndNoRetry_witness :
    (getInteractingAddresses FailurePolicy.skipAndContinue 100 exListSigs exFetch ["c2"]
      = getInteractingAddresses FailurePolicy.skipAndContinue 100
          (fun x => if x = "c2" then [sigA] ++ [sigB] else exListSigs x) exFetch ["c2"])
    ∧ processSignature FailurePolicy.skipAndContinue 100 exFetch initialState sigE
        = ({ initialState with fetchCalls := ["sigE"], sleeps := [10000] }, false)
    ∧ (processSignatures FailurePolicy.skipAndContinue 100 exFetch initialState
        [sigE, sigB]).1.fetchCalls = ["sigE", "sigB"] :=
  ⟨(skipPolicyCooldownAndNoRetry 100 exListSigs exFetch ["c2"] "c2" [sigA] [sigB]
      sigE (by decide) (by decide)).1,
   (skipPolicyCooldownAndNoRetry 100 exListSigs exFetch ["c2"] "c2" [sigA] [sigB]
      sigE (by decide) (by decide)).2.1 initialState,
   (skipPolicyCooldownAndNoRetry 100 exListSigs exFetch ["c2"] "c2" [sigA] [sigB]
      sigE (by decide) (by decide)).2.2 initialState [sigE, sigB]⟩

/-- Counterexample to C6 as stated: under the abort policy, an error while
processing contract `c2` ends the run before `c1`'s page is ever requested,
so the input address `c1` receives zero listing calls, not exactly one. -/
theorem singlePage_counterexample :
    (processContracts FailurePolicy.abortAndReturnPartialResult 5000 exListSigs exFetch
        initialState ["c2", "c1"]).1.listCalls = [("c2", 1000)] ∧
    "c1" ∉ ((processContracts FailurePolicy.abortAndReturnPartialResult 5000 exListSigs
        exFetch initialState ["c2", "c1"]).1.listCalls.map Prod.fst) := by
  decide

/-- Claim C6 amended: every listing call the pipeline makes carries the fixed
page bound 1000, the listing calls are exactly one per address over a
prefix of the input list (so no continuation request is ever issued for an
addressʼ history), and in a run that never aborts — in particular under the
skip-and-continue policy — every input address gets exactly one page
request. -/
theorem singlePage_amended (policy : FailurePolicy) (d : Nat)
    (listSigs : String → List SignatureInfo) (fetch : String → FetchResult)
    (cs : List String) :
    (∀ p ∈ (processContracts policy d listSigs fetch initialState cs).1.listCalls,
        p.2 = 1000) ∧
    (∃ k, (processContracts policy d listSigs fetch initialState cs).1.listCalls
        = (cs.take k).map (fun c => (c, 1000))) ∧
    (processContracts FailurePolicy.skipAndContinue d listSigs fetch
        initialState cs).1.listCalls = cs.map (fun c => (c, 1000)) := by
  obtain ⟨k, hk⟩ := processContracts_listCalls_take policy d listSigs fetch cs initialState
  have hk2 : (processContracts policy d listSigs fetch initialState cs).1.listCalls
      = (cs.take k).map (fun c => (c, 1000)) := by
    simpa [initialState] using hk
  refine ⟨?_, ⟨k, hk2⟩, ?_⟩
  · intro p hp
    rw [hk2] at hp
    obtain ⟨c, _, rfl⟩ := List.mem_map.1 hp
    rfl
  · simpa [initialState] using
      processContracts_listCalls_skip d listSigs fetch cs initialState

/-- Witness for the amended C6 at concrete inputs. -/
theorem singlePage_amended_witness :
    (∀ p ∈ (processContracts FailurePolicy.abortAndReturnPartialResult 5000 exListSigs
        exFetch initialState ["c2", "c1"]).1.listCalls, p.2 = 1000) ∧
    (∃ k, (processContracts FailurePolicy.abortAndReturnPartialResult 5000 exListSigs
        exFetch initialState ["c2", "c1"]).1.listCalls
        = (["c2", "c1"].take k).map (fun c => (c, 1000))) ∧
    (processContracts FailurePolicy.skipAndContinue 5000 exListSigs exFetch
        initialState ["c2", "c1"]).1.listCalls
        = ["c2", "c1"].map (fun c => (c, 1000)) :=
  singlePage_amended FailurePolicy.abortAndReturnPartialResult 5000 exListSigs exFetch
    ["c2", "c1"]

/-- Counterexample to C7 as stated: a run whose only signature is skipped as
not found performs no sleep at all, although that signature was fetched and
a listing call was issued — so no delay follows a skipped signature, nor a
listing call. -/
theorem rateLimiter_counterexample :
    (processContracts FailurePolicy.abortAndReturnPartialResult 5000 (fun _ => [sigN])
        (fun _ => FetchResult.notFound) initialState ["c1"]).1.fetchCalls = ["sigN"] ∧
    (processContracts FailurePolicy.abortAndReturnPartialResult 5000 (fun _ => [sigN])
        (fun _ => FetchResult.notFound) initialState ["c1"]).1.listCalls
        = [("c1", 1000)] ∧
    (processContracts FailurePolicy.abortAndReturnPartialResult 5000 (fun _ => [sigN])
        (fun _ => FetchResult.notFound) initialState ["c1"]).1.sleeps
        = ([] : List Nat) := by
  decide

/-- Claim C7 amended: the fixed `delayMs` delay occurs exactly after the
signatures whose transaction was fetched successfully with an account list
present; a not-found or account-list-missing skip continues with no delay,
a transient error sleeps 10000 ms under skip-and-continue and nothing under
abort-and-return-partial, and a listing call introduces no delay of its
own. -/
theorem rateLimiter_amended (policy : FailurePolicy) (d : Nat)
    (fetch : String → FetchResult) (st : RunState) (sig : SignatureInfo) :
    (fetch sig.signature = FetchResult.notFound →
        (processSignature policy d fetch st sig).1.sleeps = st.sleeps) ∧
    (∀ tx, fetch sig.signature = FetchResult.success tx → tx.accountKeys = none →
        (processSignature policy d fetch st sig).1.sleeps = st.sleeps) ∧
    (∀ tx keys, fetch sig.signature = FetchResult.success tx →
        tx.accountKeys = some keys →
        (processSignature policy d fetch st sig).1.sleeps = st.sleeps ++ [d]) ∧
    (fetch sig.signature = FetchResult.fetchError →
        (processSignature FailurePolicy.skipAndContinue d fetch st sig).1.sleeps
            = st.sleeps ++ [10000] ∧
        (processSignature FailurePolicy.abortAndReturnPartialResult d fetch
            st sig).1.sleeps = st.sleeps) ∧
    (∀ (listSigs : String → List SignatureInfo) (c : String), listSigs c = [] →
        (processContracts policy d listSigs fetch st [c]).1.sleeps = st.sleeps) := by
  refine ⟨?_, ?_, ?_, ?_, ?_⟩
  · intro h
    simp [processSignature, h]
  · intro tx h hk
    simp [processSignature, h, hk]
  · intro tx keys h hk
    simp [processSignature, h, hk]
  · intro h
    constructor <;> simp [processSignature, h]
  · intro listSigs c hE
    simp [processContracts, processSignatures, hE]

/-- Witness for the amended C7: one concrete instance of each branch. -/
theorem rateLimiter_amended_witness :
    (processSignature FailurePolicy.abortAndReturnPartialResult 5000
        (fun _ => FetchResult.notFound) initialState sigN).1.sleeps = [] ∧
    (processSignature FailurePolicy.abortAndReturnPartialResult 5000
        (fun _ => FetchResult.success ⟨none⟩) initialState sigN).1.sleeps = [] ∧
    (processSignature FailurePolicy.abortAndReturnPartialResult 5000
        (fun _ => FetchResult.success txA) initialState sigN).1.sleeps = [5000] ∧
    (processSignature FailurePolicy.skipAndContinue 5000
        (fun _ => FetchResult.fetchError) initialState sigN).1.sleeps = [10000] ∧
    (processSignature FailurePolicy.abortAndReturnPartialResult 5000
        (fun _ => FetchResult.fetchError) initialState sigN).1.sleeps = [] ∧
    (processContracts FailurePolicy.abortAndReturnPartialResult 5000 (fun _ => [])
        (fun _ => FetchResult.notFound) initialState ["c1"]).1.sleeps = [] :=
  ⟨(rateLimiter_amended FailurePolicy.abortAndReturnPartialResult 5000
      (fun _ => FetchResult.notFound) initialState sigN).1 rfl,
   (rateLimiter_amended FailurePolicy.abortAndReturnPartialResult 5000
      (fun _ => FetchResult.success ⟨none⟩) initialState sigN).2.1 ⟨none⟩ rfl rfl,
   (rateLimiter_amended FailurePolicy.abortAndReturnPartialResult 5000
      (fun _ => FetchResult.success txA) initialState sigN).2.2.1 txA
      [⟨"Alice", true⟩, ⟨"Prog", false⟩] rfl rfl,
   ((rateLimiter_amended FailurePolicy.skipAndContinue 5000
      (fun _ => FetchResult.fetchError) initialState sigN).2.2.2.1 rfl).1,
   ((rateLimiter_amended FailurePolicy.abortAndReturnPartialResult 5000
      (fun _ => FetchResult.fetchError) initialState sigN).2.2.2.1 rfl).2,
   (rateLimiter_amended FailurePolicy.abortAndReturnPartialResult 5000
      (fun _ => FetchResult.notFound) initialState sigN).2.2.2.2 (fun _ => []) "c1" rfl⟩

/-- Claim C8: the unique-address set grows monotonically over the run (the
state before any stretch of the run is a prefix of the state after it), and
`add` is idempotent: adding a present element changes nothing, adding a new
one appends exactly it. -/
theorem addressSet_monotone (policy : FailurePolicy) (d : Nat)
    (listSigs : String → List SignatureInfo) (fetch : String → FetchResult)
    (st : RunState) (cs : List String) :
    (∃ t, (processContracts policy d listSigs fetch st cs).1.uniqueAddresses
        = st.uniqueAddresses ++ t) ∧
    (∀ (s : List String) (a : String), a ∈ s → SetAdd s a = s) ∧
    (∀ (s : List String) (a : String), a ∉ s → SetAdd s a = s ++ [a]) := by
  refine ⟨⟨firstOccurrences ((collectContracts policy fetch listSigs cs).1.filter
      (fun b => b ∉ st.uniqueAddresses)), ?_⟩,
    fun s a h => SetAdd_of_mem h, fun s a h => SetAdd_of_not_mem h⟩
  rw [processContracts_unique, foldl_SetAdd_eq]

/-- Witness for C8: a run seeded with `["Seed"]` only extends it, and the two
`SetAdd` cases at concrete inputs. -/
theorem addressSet_monotone_witness :
    (∃ t, (processContracts FailurePolicy.skipAndContinue 100 exListSigs exFetch
        ⟨["Seed"], [], [], []⟩ ["c1"]).1.uniqueAddresses = ["Seed"] ++ t) ∧
    SetAdd ["x"] "x" = ["x"] ∧
    SetAdd ["x"] "y" = ["x", "y"] :=
  ⟨(addressSet_monotone FailurePolicy.skipAndContinue 100 exListSigs exFetch
      ⟨["Seed"], [], [], []⟩ ["c1"]).1,
   (addressSet_monotone FailurePolicy.skipAndContinue 100 exListSigs exFetch
      ⟨["Seed"], [], [], []⟩ ["c1"]).2.1 ["x"] "x" (by decide),
   (addressSet_monotone FailurePolicy.skipAndContinue 100 exListSigs exFetch
      ⟨["Seed"], [], [], []⟩ ["c1"]).2.2 ["x"] "y" (by decide)⟩

end SolanaScraper
